import Mathlib

set_option maxRecDepth 40000

/-!
Verification of the geometric core of the freeform-builder repository.

The repository contains two near-duplicate variants of the core:
`src/src/main.js` (segment-based walls) and `src/unnamed/part_000`
(extruded path walls).  Both are embedded below.

Modelling conventions, used throughout:

* JS numbers are modelled by exact rationals `ℚ`.  Floating-point rounding
  artifacts of IEEE doubles are outside the model.
* `toFixed(3)` string keys are modelled by the pair of rounded integers
  `(round (1000*x), round (1000*z))`; two keys are equal exactly when the
  two formatted strings are equal (the `-0.000` versus `0.000` formatting
  artifact of negative zero is outside the model).
* Draw-plane points always have `y = 0` in the source (they come from
  intersection with the ground plane), so points are modelled by the pair
  `(x, z)`.
* `Math.atan2` and `Math.cos`/`Math.sin` appear only in the angle-snapping
  stage of `snapPoint`.  There the candidate point is described to the model
  in the same polar form the code computes: a distance `d` and an angle.
  Angles are measured in units of `π/4` (the snap step), so the JS
  `angle / CONFIG.SNAP_ANGLE_STEP` is the model's `a`, the thresholds
  `π/24` and `π/12` are `1/6` and `1/3`, and a full turn `2π` is `8`.
  Values of `cos`/`sin` at multiples of `π/4` lie in `ℚ[√2]`, modelled by
  the exact pairs `Q2` below, so the snapped point is exact.
* `Math.sqrt(s) < r` for `s, r ≥ 0` is equivalently modelled as `s < r*r`
  (squares compare like their nonnegative roots).
-/

/-- A draw-plane point with rational coordinates, as used by the graph and
floor machinery (`y` is always `0` in the source and is omitted). -/
structure Pt where
  x : ℚ
  z : ℚ
deriving DecidableEq, Repr

/-- A vertex key.  The source builds the string
`x.toFixed(3) + "," + z.toFixed(3)`; the model keeps the two rounded
integers `round (1000*x)` and `round (1000*z)` instead of their decimal
string images. -/
abbrev Key := ℤ × ℤ

/-- Embeds `getVertexKey` (main.js line 333, part_000 line 375). -/
def getVertexKey (v : Pt) : Key :=
  (round (1000 * v.x), round (1000 * v.z))

/-- One entry of `state.wallSegments` in main.js: `{start, end, wallId}`. -/
structure Seg where
  start : Pt
  stop : Pt
  wallId : ℕ
deriving DecidableEq, Repr

/-- Embeds `deleteWall` (main.js lines 287-311) restricted to the data it
changes that the floor pipeline reads: the first segment whose `wallId`
matches is removed (`findIndex` + `splice(segIndex, 1)`); deleting an
unknown id is a no-op. -/
def deleteWall : List Seg → ℕ → List Seg
  | [], _ => []
  | s :: rest, id => if s.wallId = id then rest else s :: deleteWall rest id

/-- One frontier element of the breadth-first search queue:
`[current, path, visitedSet]` in the source. -/
structure Entry where
  cur : Key
  path : List Key
  visited : List Key
deriving DecidableEq, Repr

/-- Embeds the inner `for (const neighbor of neighbors)` loop of the cycle
search (main.js lines 373-387, part_000 lines 424-435), parametrised by the
depth cap (15 in main.js, 20 in part_000).  Returns `Sum.inl path` when a
loop back to `startKey` is found (the JS callback returns at that point, so
the queue is abandoned), otherwise the list of entries pushed onto the
queue, in neighbor order. -/
def processNeighbors (cap : ℕ) (startKey : Key) (path visited : List Key) :
    List Key → Sum (List Key) (List Entry)
  | [] => .inr []
  | n :: ns =>
    if 2 < path.length ∧ n = startKey then .inl path
    else
      match processNeighbors cap startKey path visited ns with
      | .inl l => .inl l
      | .inr es =>
        .inr ((if n ∉ visited ∧ path.length < cap
               then [⟨n, path ++ [n], visited ++ [n]⟩] else []) ++ es)

/-- Embeds the `while (queue.length > 0)` search from one start vertex.
`fuel` bounds the number of queue pops; the JS loop always terminates
because only simple paths enter the queue, and the model returns `none`
when the chosen fuel is too small, `some none` when the queue empties
without a loop, and `some (some l)` for the first loop found. -/
def bfsRun (cap : ℕ) (adj : Key → List Key) (startKey : Key) :
    ℕ → List Entry → Option (Option (List Key))
  | 0, _ => none
  | _ + 1, [] => some none
  | fuel + 1, e :: rest =>
    match processNeighbors cap startKey e.path e.visited (adj e.cur) with
    | .inl l => some (some l)
    | .inr es => bfsRun cap adj startKey fuel (rest ++ es)

/-- Embeds the outer `vertices.forEach((_, startKey) => ...)` loop shared by
both loop detectors: vertices already claimed by a found loop are skipped as
start vertices, each found loop is appended to the accumulator and claims
its vertices. -/
def findLoopsAux (cap : ℕ) (adj : Key → List Key) (fuel : ℕ) :
    List Key → List Key → List (List Key) → Option (List (List Key))
  | [], _, acc => some acc
  | v :: vs, claimed, acc =>
    if v ∈ claimed then findLoopsAux cap adj fuel vs claimed acc
    else
      match bfsRun cap adj v fuel [⟨v, [v], [v]⟩] with
      | none => none
      | some none => findLoopsAux cap adj fuel vs claimed acc
      | some (some l) => findLoopsAux cap adj fuel vs (claimed ++ l) (acc ++ [l])

/-- Insertion-ordered key set, mirroring `if (!vertices.has(k)) vertices.set(k, ...)`. -/
def insertVertex (acc : List Key) (k : Key) : List Key :=
  if k ∈ acc then acc else acc ++ [k]

/-- The insertion-ordered list of vertex keys of an edge list, as iterated
by `vertices.forEach`. -/
def vertexList (edges : List (Key × Key)) : List Key :=
  edges.foldl (fun acc e => insertVertex (insertVertex acc e.1) e.2) []

/-- The adjacency list of a key: for each edge `[k1, k2]` in order, `k1`
receives `k2` and `k2` receives `k1` (`adj.get(k1).push(k2); adj.get(k2).push(k1)`). -/
def adjOf (edges : List (Key × Key)) (k : Key) : List Key :=
  edges.flatMap fun e =>
    (if e.1 = k then [e.2] else []) ++ (if e.2 = k then [e.1] else [])

/-- The edge list read off `state.wallSegments` in main.js lines 343-351. -/
def segEdges (segs : List Seg) : List (Key × Key) :=
  segs.map fun s => (getVertexKey s.start, getVertexKey s.stop)

/-- Embeds `findAllClosedLoops` (main.js lines 337-392): fewer than two
segments yield no loops, otherwise the breadth-first cycle search with
depth cap 15 runs over the segment graph.  `fuel` bounds each start
vertex's queue pops (see `bfsRun`). -/
def findAllClosedLoops (fuel : ℕ) (segs : List Seg) : Option (List (List Key)) :=
  if segs.length < 2 then some []
  else
    let edges := segEdges segs
    findLoopsAux 15 (adjOf edges) fuel (vertexList edges) [] []

/-- The point stored for a key by the rebuild loop of `generateFloorFromLoop`
(main.js lines 397-403): `vertices.set` is called unconditionally there, so
the last segment endpoint with the key wins. -/
def resolveLast (segs : List Seg) (k : Key) : Option Pt :=
  ((segs.flatMap fun s => [(getVertexKey s.start, s.start), (getVertexKey s.stop, s.stop)]).reverse.find?
    fun e => e.1 = k).map fun e => e.2

/-- Embeds `generateFloorFromLoop` (main.js lines 394-431) up to the data the
pipeline keeps: the resolved polygon boundary, or `none` for a degenerate
loop (fewer than 3 keys) or an unresolvable key. -/
def generateFloorFromLoop (segs : List Seg) (loopKeys : List Key) : Option (List Pt) :=
  if loopKeys.length < 3 then none
  else
    let points := loopKeys.map (resolveLast segs)
    if points.any Option.isNone then none
    else some points.reduceOption

/-- Embeds `regenerateAllFloors` (main.js lines 442-456): all floors are
rebuilt from scratch; loops whose floor generation returns `null` are
skipped. -/
def regenerateAllFloors (fuel : ℕ) (segs : List Seg) : Option (List (List Pt)) :=
  (findAllClosedLoops fuel segs).map fun loops =>
    loops.filterMap (generateFloorFromLoop segs)

/-- Edge list of the part_000 variant (lines 384-398): walls are point
paths; each wall with at least two points contributes its consecutive point
pairs. -/
def wallEdges (walls : List (List Pt)) : List (Key × Key) :=
  walls.flatMap fun pts =>
    if pts.length < 2 then []
    else (List.range (pts.length - 1)).map fun i =>
      (getVertexKey (pts.getD i ⟨0, 0⟩), getVertexKey (pts.getD (i + 1) ⟨0, 0⟩))

/-- The point stored for a key by part_000 lines 393-394: `vertices.set` is
guarded by `has`, so the first endpoint with the key wins. -/
def resolveFirst (walls : List (List Pt)) (k : Key) : Option Pt :=
  ((walls.flatMap fun pts =>
      if pts.length < 2 then []
      else (List.range (pts.length - 1)).flatMap fun i =>
        [(getVertexKey (pts.getD i ⟨0, 0⟩), pts.getD i ⟨0, 0⟩),
         (getVertexKey (pts.getD (i + 1) ⟨0, 0⟩), pts.getD (i + 1) ⟨0, 0⟩)]).find?
    fun e => e.1 = k).map fun e => e.2

/-- Embeds `findClosedLoopsFromWalls` (part_000 lines 379-440): the same
cycle search with depth cap 20, with found key loops mapped back to points
by `loop.map(key => vertices.get(key))` (an absent key would give
`undefined`, modelled by `none`). -/
def findClosedLoopsFromWalls (fuel : ℕ) (walls : List (List Pt)) :
    Option (List (List (Option Pt))) :=
  let edges := wallEdges walls
  if edges.length = 0 then some []
  else
    (findLoopsAux 20 (adjOf edges) fuel (vertexList edges) [] []).map fun loops =>
      loops.map fun l => l.map (resolveFirst walls)

/-!
Exact arithmetic for snapped points.  The angle-snapping stage writes
`ref + distance * (cos kπ/4, sin kπ/4)`, whose coordinates lie in the ring
`ℚ[√2]`.  `Q2` is the pair representation `a + b*√2`.
-/

/-- An element `a + b*√2` of `ℚ[√2]`, the exact coordinate field of
angle-snapped points. -/
structure Q2 where
  a : ℚ
  b : ℚ
deriving DecidableEq, Repr

/-- Addition on `ℚ[√2]`, componentwise. -/
def Q2.add (u v : Q2) : Q2 := ⟨u.a + v.a, u.b + v.b⟩

/-- Subtraction on `ℚ[√2]`, componentwise. -/
def Q2.sub (u v : Q2) : Q2 := ⟨u.a - v.a, u.b - v.b⟩

/-- Negation on `ℚ[√2]`, componentwise. -/
def Q2.neg (u : Q2) : Q2 := ⟨-u.a, -u.b⟩

/-- Multiplication on `ℚ[√2]`:
`(a + b√2)(c + e√2) = (ac + 2be) + (ae + bc)√2`. -/
def Q2.mul (u v : Q2) : Q2 := ⟨u.a * v.a + 2 * u.b * v.b, u.a * v.b + u.b * v.a⟩

instance : Zero Q2 := ⟨⟨0, 0⟩⟩
instance : Add Q2 := ⟨Q2.add⟩
instance : Sub Q2 := ⟨Q2.sub⟩
instance : Neg Q2 := ⟨Q2.neg⟩
instance : Mul Q2 := ⟨Q2.mul⟩

/-- The embedding of a rational number into `Q2`. -/
def Q2.ofRat (q : ℚ) : Q2 := ⟨q, 0⟩

/-- Whether `a + b*√2 ≥ 0` as a real number, decided by sign analysis and
cross squaring (`b*√2` and a nonnegative rational compare like their
squares). -/
def Q2.nonneg (x : Q2) : Prop :=
  (0 ≤ x.a ∧ 0 ≤ x.b) ∨
  (0 ≤ x.a ∧ x.b < 0 ∧ 2 * x.b ^ 2 ≤ x.a ^ 2) ∨
  (x.a < 0 ∧ 0 ≤ x.b ∧ x.a ^ 2 ≤ 2 * x.b ^ 2)

instance (x : Q2) : Decidable (Q2.nonneg x) := by
  unfold Q2.nonneg; infer_instance

/-- `x < y` over `ℚ[√2]` as real numbers: `y - x` is nonnegative and the
two elements differ (distinct pairs denote distinct reals since `√2` is
irrational). -/
def Q2.ltq (x y : Q2) : Prop := Q2.nonneg (y - x) ∧ x ≠ y

instance (x y : Q2) : Decidable (Q2.ltq x y) := by
  unfold Q2.ltq; infer_instance

/-- A draw-plane point with coordinates in `ℚ[√2]`, used by the snapping
and drawing embeddings (`y` is always `0` in the source and is omitted). -/
structure P2 where
  x : Q2
  z : Q2
deriving DecidableEq, Repr

/-- The all-zero point, used as the lookup default for list indexing where
the source indexes a known-inhabited array. -/
def p2zero : P2 := ⟨0, 0⟩

/-- The squared planar distance between two points.  Wherever the source
compares `Math.sqrt(distSq) < r` (or `distanceTo`), the model compares
`distSq < r*r`, which is equivalent for `r ≥ 0`. -/
def distSq (p q : P2) : Q2 :=
  (p.x - q.x) * (p.x - q.x) + (p.z - q.z) * (p.z - q.z)

/-- `Math.cos` at the angle `k * π/4`, exactly (`⟨0, 1/2⟩` is `√2/2`). -/
def cosU (k : ℤ) : Q2 :=
  match (k.emod 8).toNat with
  | 0 => ⟨1, 0⟩
  | 1 => ⟨0, 1/2⟩
  | 2 => ⟨0, 0⟩
  | 3 => ⟨0, -(1/2)⟩
  | 4 => ⟨-1, 0⟩
  | 5 => ⟨0, -(1/2)⟩
  | 6 => ⟨0, 0⟩
  | _ => ⟨0, 1/2⟩

/-- `Math.sin` at the angle `k * π/4`, exactly. -/
def sinU (k : ℤ) : Q2 :=
  match (k.emod 8).toNat with
  | 0 => ⟨0, 0⟩
  | 1 => ⟨0, 1/2⟩
  | 2 => ⟨1, 0⟩
  | 3 => ⟨0, 1/2⟩
  | 4 => ⟨0, 0⟩
  | 5 => ⟨0, -(1/2)⟩
  | 6 => ⟨-1, 0⟩
  | _ => ⟨0, -(1/2)⟩

/-- The point the angle-snap branch writes:
`snapped.x = ref.x + cos(snapAngle)*distance; snapped.z = ref.z + sin(snapAngle)*distance`
with `snapAngle = k * π/4`. -/
def pointAtAngle (ref : P2) (distance : ℚ) (k : ℤ) : P2 :=
  ⟨ref.x + Q2.ofRat distance * cosU k, ref.z + Q2.ofRat distance * sinU k⟩

/-!
Angle quantities.  With angles measured in units of `π/4`,
`Math.round(angle / CONFIG.SNAP_ANGLE_STEP)` is `jround a` and
`Math.round(angle / (Math.PI / 2)) * (Math.PI / 2)` is `2 * jround (a/2)`
quarter-turn units.  `Math.round(x)` is `⌊x + 1/2⌋` (halves round toward
positive infinity), written on `Rat.floor` so that it evaluates. -/

/-- `Math.round` on an exact rational. -/
def jround (q : ℚ) : ℤ := (q + 1/2).floor

/-- The `isCardinal` test of `snapPoint` (main.js line 478): the source
compares `|snapAngle - cardinalAngle| < 0.001` in radians; both angles are
integer multiples of `π/4 ≈ 0.785`, so the test holds exactly when the two
multiples coincide. -/
def isCardinal (a : ℚ) : Prop := jround a = 2 * jround (a / 2)

instance (a : ℚ) : Decidable (isCardinal a) := by
  unfold isCardinal; infer_instance

/-- The tolerance applied to the angle `a` (in `π/4` units):
`SNAP_CARDINAL_THRESHOLD = π/24` is `1/6`, `SNAP_ANGLE_THRESHOLD = π/12`
is `1/3`. -/
def angleThreshold (a : ℚ) : ℚ := if isCardinal a then 1/6 else 1/3

/-- The guard of the angle-snap branch (main.js line 481):
`angleDiff < threshold || angleDiff > 2π - threshold`, with `2π` being `8`
quarter-step units. -/
def angleSnaps (a : ℚ) : Prop :=
  |a - (jround a : ℚ)| < angleThreshold a ∨
  |a - (jround a : ℚ)| > 8 - angleThreshold a

instance (a : ℚ) : Decidable (angleSnaps a) := by
  unfold angleSnaps; infer_instance

/-- The endpoint-snapping `for ... break` loop shared by both variants
(main.js lines 499-511, part_000 lines 536-543): the first candidate whose
planar distance to the current snapped point is below
`SNAP_DISTANCE = 0.5` replaces it and stops the search. -/
def endpointLoop : List P2 → P2 → Bool → P2 × Bool
  | [], snapped, didSnap => (snapped, didSnap)
  | c :: rest, snapped, didSnap =>
    if Q2.ltq (distSq snapped c) (Q2.ofRat (1/4)) then (c, true)
    else endpointLoop rest snapped didSnap

/-- The pieces of mutable state read by main.js `snapPoint`. -/
structure SnapState where
  snapping : Bool
  wallSegments : List (P2 × P2)
  drawPoints : List P2
deriving Repr

/-- The endpoint candidate list of main.js lines 490-497: every segment
start and end in order, then the first point of the in-progress path when
one exists. -/
def snapCandidates (st : SnapState) : List P2 :=
  (st.wallSegments.flatMap fun s => [s.1, s.2]) ++
  (match st.drawPoints with
   | [] => []
   | p :: _ => [p])

/-- Embeds `snapPoint` (main.js lines 462-515).  The candidate is `point`;
when a reference point is supplied, the polar data the JS code derives from
`point - referencePoint` (`distance = direction.length()` and
`a = atan2(direction.z, direction.x) / (π/4)`) is part of the input, since
`atan2` has no exact rational form.  When the angle-snap branch does not
fire, the JS code leaves `snapped` at the clone of `point`, which the model
mirrors by returning `point` itself. -/
def snapPoint (st : SnapState) (point : P2) (refData : Option (P2 × ℚ × ℚ))
    (checkEndpoints : Bool) : P2 × Bool :=
  if st.snapping = true then
    let md : P2 × Bool :=
      match refData with
      | none => (point, false)
      | some (ref, distance, a) =>
        if angleSnaps a then (pointAtAngle ref distance (jround a), true)
        else (point, false)
    if checkEndpoints then endpointLoop (snapCandidates st) md.1 md.2 else md
  else (point, false)

/-- The pieces of mutable state read by the part_000 drawing functions:
walls are committed point paths. -/
structure DrawState where
  snapping : Bool
  walls : List (List P2)
  drawPoints : List P2
deriving Repr

/-- The endpoint candidate list of part_000 lines 526-534: for every wall
its first and last path point, then the first point of the in-progress path
when loop closing is permitted. -/
def snapCandidatesV0 (st : DrawState) (canSnapToStart : Bool) : List P2 :=
  (st.walls.flatMap fun pts => [pts.getD 0 p2zero, pts.getD (pts.length - 1) p2zero]) ++
  (if canSnapToStart ∧ 0 < st.drawPoints.length
   then [st.drawPoints.getD 0 p2zero] else [])

/-- Embeds `snapPoint` of the part_000 variant (lines 499-546).  Identical
to the main.js variant except that the endpoint stage always runs and its
candidate list differs (see `snapCandidatesV0`). -/
def snapPointV0 (st : DrawState) (point : P2) (refData : Option (P2 × ℚ × ℚ))
    (canSnapToStart : Bool) : P2 × Bool :=
  if st.snapping = true then
    let md : P2 × Bool :=
      match refData with
      | none => (point, false)
      | some (ref, distance, a) =>
        if angleSnaps a then (pointAtAngle ref distance (jround a), true)
        else (point, false)
    endpointLoop (snapCandidatesV0 st canSnapToStart) md.1 md.2
  else (point, false)

/-- Embeds `startDrawing` (part_000 lines 612-623) restricted to the data
the path builder reads: the path restarts at the given (already snapped)
point. -/
def startDrawing (st : DrawState) (p : P2) : DrawState :=
  { st with drawPoints := [p] }

/-- Embeds `updateDrawing` (part_000 lines 625-669).  The current pointer
position is `point` with its polar data relative to the last path point
(see `snapPoint`).  If the snapped candidate is at least
`MIN_POINT_DISTANCE = 0.3` from the last path point it is appended,
otherwise it overwrites the last path point in place. -/
def updateDrawing (st : DrawState) (point : P2) (d a : ℚ) : DrawState :=
  if st.drawPoints.length = 0 then st
  else
    let lastPoint := st.drawPoints.getD (st.drawPoints.length - 1) p2zero
    let canSnapToStart := 2 < st.drawPoints.length
    let s := snapPointV0 st point (some (lastPoint, d, a)) (decide canSnapToStart)
    if ¬ Q2.ltq (distSq lastPoint s.1) (Q2.ofRat (9/100)) then
      { st with drawPoints := st.drawPoints ++ [s.1] }
    else
      { st with drawPoints := st.drawPoints.set (st.drawPoints.length - 1) s.1 }

/-- Embeds `finishDrawing` (part_000 lines 671-707): when the path has more
than two points and its last point is within `SNAP_DISTANCE = 0.5` of its
first point, the last point is replaced by a copy of the first; a path with
at least two points is then committed as a wall; the session always
resets. -/
def finishDrawing (st : DrawState) : DrawState :=
  let n := st.drawPoints.length
  let pts :=
    if 2 < n ∧ Q2.ltq (distSq (st.drawPoints.getD (n - 1) p2zero) (st.drawPoints.getD 0 p2zero))
        (Q2.ofRat (1/4))
    then st.drawPoints.set (n - 1) (st.drawPoints.getD 0 p2zero)
    else st.drawPoints
  if 2 ≤ pts.length then { st with walls := st.walls ++ [pts], drawPoints := [] }
  else { st with drawPoints := [] }

/-- One drawing gesture event, for quantifying over event sequences. -/
inductive DrawOp where
  | start (p : P2)
  | update (point : P2) (d a : ℚ)
  | finish
deriving Repr

/-- Applies one gesture event. -/
def applyOp (st : DrawState) : DrawOp → DrawState
  | .start p => startDrawing st p
  | .update point d a => updateDrawing st point d a
  | .finish => finishDrawing st

/-- Runs a sequence of gesture events. -/
def runOps (st : DrawState) (ops : List DrawOp) : DrawState :=
  ops.foldl applyOp st

/-!
Wall extrusion (part_000 lines 219-286).  `Vector3.normalize` divides by a
Euclidean length, which has no exact rational form, so the extrusion is
embedded parametrically in the normalisation function; the vertex and index
counts do not depend on it.
-/

/-- A three-component vector as used by the extrusion (general `y`). -/
structure V3 where
  x : ℚ
  y : ℚ
  z : ℚ
deriving DecidableEq, Repr

/-- Componentwise vector difference (`subVectors`). -/
def v3sub (u v : V3) : V3 := ⟨u.x - v.x, u.y - v.y, u.z - v.z⟩

/-- Componentwise vector sum (`addVectors`). -/
def v3add (u v : V3) : V3 := ⟨u.x + v.x, u.y + v.y, u.z + v.z⟩

/-- `copy(current).addScaledVector(perp, s)`. -/
def v3addScaled (u v : V3) (s : ℚ) : V3 := ⟨u.x + s * v.x, u.y + s * v.y, u.z + s * v.z⟩

/-- The zero vector, the lookup default for list indexing. -/
def v3zero : V3 := ⟨0, 0, 0⟩

/-- The twelve position floats pushed for path point `i`
(part_000 lines 227-256): left and right rail points at `y = 0` and at
`y = height`, in source push order. -/
def vertsAt (norm : V3 → V3) (points : List V3) (height thickness : ℚ) (i : ℕ) : List ℚ :=
  let current := points.getD i v3zero
  let direction :=
    if i = 0 then
      norm (v3sub (points.getD 1 v3zero) (points.getD 0 v3zero))
    else if i = points.length - 1 then
      norm (v3sub (points.getD i v3zero) (points.getD (i - 1) v3zero))
    else
      norm (v3add (norm (v3sub (points.getD i v3zero) (points.getD (i - 1) v3zero)))
                  (norm (v3sub (points.getD (i + 1) v3zero) (points.getD i v3zero))))
  let perp : V3 := ⟨-direction.z, 0, direction.x⟩
  let l := v3addScaled current perp (-(thickness / 2))
  let r := v3addScaled current perp (thickness / 2)
  [l.x, 0, l.z, r.x, 0, r.z, l.x, height, l.z, r.x, height, r.z]

/-- The twenty-four triangle indices pushed for segment `i`
(part_000 lines 259-278): two triangles for each of the four faces. -/
def idxAt (i : ℕ) : List ℕ :=
  let base := i * 4
  let next := (i + 1) * 4
  [base, next + 2, base + 2, base, next, next + 2,
   base + 1, base + 3, next + 3, base + 1, next + 3, next + 1,
   base + 2, next + 3, base + 3, base + 2, next + 2, next + 3,
   base, base + 1, next + 1, base, next + 1, next]

/-- Embeds `createExtrudedWallGeometry` (part_000 lines 219-286),
parametrised by the normalisation function `norm` standing for
`Vector3.normalize`.  Fewer than two points yield `null`; otherwise the
position array and the index array are returned. -/
def createExtrudedWallGeometry (norm : V3 → V3) (points : List V3)
    (height thickness : ℚ) : Option (List ℚ × List ℕ) :=
  if points.length < 2 then none
  else
    some ((List.range points.length).flatMap (vertsAt norm points height thickness),
          (List.range (points.length - 1)).flatMap idxAt)
/-!
Concrete wall sets used by the loop-detection claims.
-/

/-- Four committed segments forming the unit square with corners
`(0,0), (1,0), (1,1), (0,1)`. -/
def squareSegs : List Seg :=
  [⟨⟨0, 0⟩, ⟨1, 0⟩, 1⟩, ⟨⟨1, 0⟩, ⟨1, 1⟩, 2⟩, ⟨⟨1, 1⟩, ⟨0, 1⟩, 3⟩, ⟨⟨0, 1⟩, ⟨0, 0⟩, 4⟩]

/-- The key cycle of the unit square found by the detector. -/
def sqLoopKeys : List Key := [(0, 0), (1000, 0), (1000, 1000), (0, 1000)]

/-- The floor polygon generated for the unit square. -/
def sqFloor : List Pt := [⟨0, 0⟩, ⟨1, 0⟩, ⟨1, 1⟩, ⟨0, 1⟩]

/-- A second unit square, not touching the first, with corners
`(3,0), (4,0), (4,1), (3,1)`, wall ids 5 to 8. -/
def squareSegsB : List Seg :=
  [⟨⟨3, 0⟩, ⟨4, 0⟩, 5⟩, ⟨⟨4, 0⟩, ⟨4, 1⟩, 6⟩, ⟨⟨4, 1⟩, ⟨3, 1⟩, 7⟩, ⟨⟨3, 1⟩, ⟨3, 0⟩, 8⟩]

/-- Two separate, non-touching closed quads. -/
def twoQuads : List Seg := squareSegs ++ squareSegsB

/-- The floor polygon of the second square. -/
def sqFloorB : List Pt := [⟨3, 0⟩, ⟨4, 0⟩, ⟨4, 1⟩, ⟨3, 1⟩]
/-- The closed square drawn as a single part_000 wall path. -/
def closedWallV0 : List (List Pt) := [[⟨0, 0⟩, ⟨1, 0⟩, ⟨1, 1⟩, ⟨0, 1⟩, ⟨0, 0⟩]]

/-- The resolved point loop the part_000 detector returns for `closedWallV0`. -/
def sqLoopPtsV0 : List (Option Pt) :=
  [some ⟨0, 0⟩, some ⟨1, 0⟩, some ⟨1, 1⟩, some ⟨0, 1⟩]
/-!
Concrete snapping and drawing inputs used by witnesses and
counterexamples.
-/

def stC2 : SnapState := ⟨true, [], [⟨⟨6/5, 0⟩, ⟨0, 0⟩⟩]⟩
def pW : P2 := ⟨⟨7, 0⟩, ⟨3, 0⟩⟩

def EC4 : P2 := ⟨⟨99/10, 0⟩, ⟨11/10, 0⟩⟩
def stC4 : SnapState := ⟨true, [(EC4, ⟨⟨20, 0⟩, ⟨20, 0⟩⟩)], []⟩
def origC4 : P2 := ⟨⟨9979/1000, 0⟩, ⟨654/1000, 0⟩⟩

def EW4 : P2 := ⟨⟨101/10, 0⟩, ⟨0, 0⟩⟩
def stW4 : SnapState := ⟨true, [(EW4, ⟨⟨20, 0⟩, ⟨20, 0⟩⟩)], []⟩

def stC9 : SnapState := ⟨true, [(⟨⟨30, 0⟩, ⟨0, 0⟩⟩, ⟨⟨40, 0⟩, ⟨0, 0⟩⟩)], []⟩
def stC9off : SnapState := ⟨false, [], []⟩
def stV9 : DrawState := ⟨true, [[⟨⟨30, 0⟩, ⟨0, 0⟩⟩, ⟨⟨40, 0⟩, ⟨0, 0⟩⟩]], []⟩
def stV9off : DrawState := ⟨false, [], []⟩

def stC8 : DrawState := ⟨false, [], []⟩
def opsC8 : List DrawOp :=
  [.start p2zero, .update ⟨⟨3/10, 0⟩, ⟨0, 0⟩⟩ 0 0, .update ⟨⟨1/20, 0⟩, ⟨0, 0⟩⟩ 0 0,
   .update p2zero 0 0, .finish]

/-- A draw session (snapping enabled, no walls) whose path of four points
ends 0.1 away in each coordinate from its start. -/
def stC5 : DrawState :=
  ⟨true, [], [p2zero, ⟨⟨1, 0⟩, ⟨0, 0⟩⟩, ⟨⟨1, 0⟩, ⟨1, 0⟩⟩, ⟨⟨1/10, 0⟩, ⟨1/10, 0⟩⟩]⟩

/-!
Helper lemmas.
-/

theorem key_close (x y : ℚ) (h : |x - y| < 1/2000) :
    (round (1000 * x) - round (1000 * y)).natAbs ≤ 1 := by
  have hx := abs_sub_round (1000 * x)
  have hy := abs_sub_round (1000 * y)
  have hxy : |1000 * x - 1000 * y| < 1/2 := by
    rw [← mul_sub, abs_mul]
    rw [abs_of_nonneg (by norm_num : (0:ℚ) ≤ 1000)]
    linarith
  have hq : |((round (1000 * x) : ℚ)) - (round (1000 * y) : ℚ)| < 3/2 := by
    calc |((round (1000 * x) : ℚ)) - (round (1000 * y) : ℚ)|
        ≤ |((round (1000 * x) : ℚ)) - 1000 * x| + |1000 * x - 1000 * y|
            + |1000 * y - (round (1000 * y) : ℚ)| := by
          linarith [abs_sub_le ((round (1000 * x) : ℚ)) (1000 * x) ((round (1000 * y) : ℚ)),
                    abs_sub_le (1000 * x) (1000 * y) ((round (1000 * y) : ℚ))]
      _ < 3/2 := by
          rw [abs_sub_comm ((round (1000 * x) : ℚ)) (1000 * x)]
          linarith
  have hcast : ((round (1000 * x) - round (1000 * y)).natAbs : ℚ) < 3/2 := by
    rw [Int.cast_natAbs]
    push_cast at hq ⊢
    exact hq
  have h2 : ((round (1000 * x) - round (1000 * y)).natAbs : ℚ) < 2 := by linarith
  have h3 : (round (1000 * x) - round (1000 * y)).natAbs < 2 := by exact_mod_cast h2
  omega

theorem key_far (x y : ℚ) (h : 1/1000 < |x - y|) :
    round (1000 * x) ≠ round (1000 * y) := by
  intro heq
  have hx := abs_sub_round (1000 * x)
  have hy := abs_sub_round (1000 * y)
  have h2 : |((round (1000 * x)) : ℚ) - 1000 * y| ≤ 1/2 := by
    rw [heq, abs_sub_comm]
    exact hy
  have hsum : |1000 * x - 1000 * y| ≤ 1 := by
    calc |1000 * x - 1000 * y|
        ≤ |1000 * x - ((round (1000 * x)) : ℚ)| + |((round (1000 * x)) : ℚ) - 1000 * y| :=
          abs_sub_le _ _ _
      _ ≤ 1/2 + 1/2 := add_le_add hx h2
      _ = 1 := by norm_num
  have h3 : 1000 * |x - y| ≤ 1 := by
    have h4 : |(1000 : ℚ) * (x - y)| ≤ 1 := by rw [mul_sub]; exact hsum
    rwa [abs_mul, abs_of_nonneg (by norm_num : (0:ℚ) ≤ 1000)] at h4
  linarith

theorem vertsAt_length (norm : V3 → V3) (points : List V3) (height thickness : ℚ)
    (i : ℕ) : (vertsAt norm points height thickness i).length = 12 := rfl

theorem idxAt_length (i : ℕ) : (idxAt i).length = 24 := rfl

theorem range_flatMap_length {α : Type} (f : ℕ → List α) (c : ℕ)
    (h : ∀ i, (f i).length = c) : ∀ n, ((List.range n).flatMap f).length = c * n := by
  intro n
  induction n with
  | zero => simp
  | succ m ih =>
    rw [List.range_succ, List.flatMap_append, List.length_append, ih]
    simp [h m, Nat.mul_succ]

theorem processNeighbors_inl (cap : ℕ) (startKey : Key) (path visited : List Key) :
    ∀ (ns : List Key) (l : List Key),
      processNeighbors cap startKey path visited ns = .inl l →
      l = path ∧ 2 < path.length := by
  intro ns
  induction ns with
  | nil => intro l h; simp [processNeighbors] at h
  | cons n ns ih =>
    intro l h
    rw [processNeighbors] at h
    by_cases hc : 2 < path.length ∧ n = startKey
    · rw [if_pos hc] at h
      cases h
      exact ⟨rfl, hc.1⟩
    · rw [if_neg hc] at h
      cases hrec : processNeighbors cap startKey path visited ns with
      | inl l2 =>
        rw [hrec] at h
        injection h with h2
        subst h2
        exact ih _ hrec
      | inr es => rw [hrec] at h; cases h

theorem processNeighbors_inr (cap : ℕ) (startKey : Key) (path visited : List Key) :
    ∀ (ns : List Key) (es : List Entry),
      processNeighbors cap startKey path visited ns = .inr es →
      ∀ e ∈ es, e.path.length = path.length + 1 ∧ path.length < cap := by
  intro ns
  induction ns with
  | nil =>
    intro es h e he
    rw [processNeighbors] at h
    cases h
    simp at he
  | cons n ns ih =>
    intro es h e he
    rw [processNeighbors] at h
    by_cases hc : 2 < path.length ∧ n = startKey
    · rw [if_pos hc] at h; cases h
    · rw [if_neg hc] at h
      cases hrec : processNeighbors cap startKey path visited ns with
      | inl l2 => rw [hrec] at h; cases h
      | inr es2 =>
        rw [hrec] at h
        cases h
        rw [List.mem_append] at he
        rcases he with he | he
        · by_cases hp : n ∉ visited ∧ path.length < cap
          · rw [if_pos hp] at he
            rcases List.mem_singleton.mp he with rfl
            refine ⟨by simp, hp.2⟩
          · rw [if_neg hp] at he
            simp at he
        · exact ih es2 hrec e he

theorem bfsRun_loop_length (cap : ℕ) (adj : Key → List Key) (startKey : Key) :
    ∀ (fuel : ℕ) (q : List Entry) (l : List Key),
      (∀ e ∈ q, e.path.length ≤ cap) →
      bfsRun cap adj startKey fuel q = some (some l) →
      2 < l.length ∧ l.length ≤ cap := by
  intro fuel
  induction fuel with
  | zero => intro q l _ h; rw [bfsRun] at h; cases h
  | succ fuel ih =>
    intro q l hq h
    cases q with
    | nil => rw [bfsRun] at h; cases h
    | cons e rest =>
      rw [bfsRun] at h
      cases hrec : processNeighbors cap startKey e.path e.visited (adj e.cur) with
      | inl l2 =>
        rw [hrec] at h
        cases h
        obtain ⟨rfl, hlen⟩ := processNeighbors_inl cap startKey e.path e.visited _ _ hrec
        exact ⟨hlen, hq e (List.mem_cons_self e rest)⟩
      | inr es =>
        rw [hrec] at h
        refine ih (rest ++ es) l ?_ h
        intro e2 he2
        rw [List.mem_append] at he2
        rcases he2 with he2 | he2
        · exact hq e2 (List.mem_cons_of_mem e he2)
        · obtain ⟨hlen, hlt⟩ := processNeighbors_inr cap startKey e.path e.visited _ _ hrec e2 he2
          omega

theorem findLoopsAux_bounds (cap : ℕ) (adj : Key → List Key) (fuel : ℕ) (hcap : 1 ≤ cap) :
    ∀ (vs claimed : List Key) (acc : List (List Key)) (L : List (List Key)),
      (∀ x ∈ acc, 2 < x.length ∧ x.length ≤ cap) →
      findLoopsAux cap adj fuel vs claimed acc = some L →
      ∀ l ∈ L, 2 < l.length ∧ l.length ≤ cap := by
  intro vs
  induction vs with
  | nil =>
    intro claimed acc L hacc h
    rw [findLoopsAux] at h
    cases h
    exact hacc
  | cons v vs ih =>
    intro claimed acc L hacc h
    rw [findLoopsAux] at h
    by_cases hv : v ∈ claimed
    · rw [if_pos hv] at h
      exact ih claimed acc L hacc h
    · rw [if_neg hv] at h
      cases hb : bfsRun cap adj v fuel [⟨v, [v], [v]⟩] with
      | none => rw [hb] at h; cases h
      | some o =>
        cases o with
        | none =>
          rw [hb] at h
          exact ih claimed acc L hacc h
        | some lp =>
          rw [hb] at h
          refine ih (claimed ++ lp) (acc ++ [lp]) L ?_ h
          intro x hx
          rw [List.mem_append] at hx
          rcases hx with hx | hx
          · exact hacc x hx
          · rcases List.mem_singleton.mp hx with rfl
            exact bfsRun_loop_length cap adj v fuel [⟨v, [v], [v]⟩] x
              (by intro e he; rcases List.mem_singleton.mp he with rfl; simpa using hcap) hb

theorem ratFloor_eq_floor (q : ℚ) : q.floor = ⌊q⌋ := rfl

theorem jround_int (a : ℚ) (n : ℤ) (h : |a - n| < 1/2) : jround a = n := by
  rw [jround, ratFloor_eq_floor, Int.floor_eq_iff]
  rw [abs_sub_lt_iff] at h
  constructor
  · linarith [h.1, h.2]
  · linarith [h.1, h.2]

theorem emod8_cases (k : ℤ) :
    (k.emod 8).toNat = 0 ∨ (k.emod 8).toNat = 1 ∨ (k.emod 8).toNat = 2 ∨
    (k.emod 8).toNat = 3 ∨ (k.emod 8).toNat = 4 ∨ (k.emod 8).toNat = 5 ∨
    (k.emod 8).toNat = 6 ∨ (k.emod 8).toNat = 7 := by
  have h1 : 0 ≤ k.emod 8 := Int.emod_nonneg k (by norm_num)
  have h2 : k.emod 8 < 8 := Int.emod_lt_of_pos k (by norm_num)
  omega

theorem distSq_pointAtAngle (ref : P2) (d : ℚ) (k : ℤ) :
    distSq (pointAtAngle ref d k) ref = Q2.ofRat (d * d) := by
  rcases emod8_cases k with h | h | h | h | h | h | h | h <;>
    simp only [distSq, pointAtAngle, cosU, sinU, h] <;>
    (show Q2.add (Q2.mul (Q2.sub (Q2.add _ (Q2.mul _ _)) _) (Q2.sub (Q2.add _ (Q2.mul _ _)) _))
        (Q2.mul (Q2.sub (Q2.add _ (Q2.mul _ _)) _) (Q2.sub (Q2.add _ (Q2.mul _ _)) _)) = _) <;>
    simp only [Q2.add, Q2.sub, Q2.mul, Q2.ofRat, Q2.mk.injEq] <;>
    constructor <;>
    ring

theorem endpointLoop_none (cands : List P2) (p : P2) (ds : Bool)
    (h : ∀ c ∈ cands, ¬ Q2.ltq (distSq p c) (Q2.ofRat (1/4))) :
    endpointLoop cands p ds = (p, ds) := by
  induction cands with
  | nil => rfl
  | cons c rest ih =>
    rw [endpointLoop, if_neg (h c (List.mem_cons_self c rest))]
    exact ih fun c2 hc2 => h c2 (List.mem_cons_of_mem c hc2)

theorem endpointLoop_find (cands : List P2) (p : P2) (ds : Bool) (E : P2)
    (h : cands.find? (fun c => decide (Q2.ltq (distSq p c) (Q2.ofRat (1/4)))) = some E) :
    endpointLoop cands p ds = (E, true) := by
  induction cands with
  | nil => simp at h
  | cons c rest ih =>
    by_cases hc : Q2.ltq (distSq p c) (Q2.ofRat (1/4))
    · rw [List.find?_cons_of_pos _ (by simpa using hc)] at h
      injection h with h2
      subst h2
      rw [endpointLoop, if_pos hc]
    · rw [List.find?_cons_of_neg _ (by simpa using hc)] at h
      rw [endpointLoop, if_neg hc]
      exact ih h

theorem snapPoint_disabled (st : SnapState) (point : P2) (refData : Option (P2 × ℚ × ℚ))
    (checkEndpoints : Bool) (hoff : st.snapping = false) :
    snapPoint st point refData checkEndpoints = (point, false) := by
  rw [snapPoint.eq_def, if_neg (by rw [hoff]; exact Bool.false_ne_true)]

theorem snapPoint_noSnap (st : SnapState) (point : P2) (refData : Option (P2 × ℚ × ℚ))
    (checkEndpoints : Bool) (hsnap : st.snapping = true)
    (href : match refData with
            | none => True
            | some r => ¬ angleSnaps r.2.2)
    (hno : ∀ c ∈ snapCandidates st, ¬ Q2.ltq (distSq point c) (Q2.ofRat (1/4))) :
    snapPoint st point refData checkEndpoints = (point, false) := by
  cases refData with
  | none =>
    rw [snapPoint, if_pos hsnap]
    cases checkEndpoints with
    | false => rfl
    | true =>
      simp only
      exact endpointLoop_none _ _ _ hno
  | some r =>
    obtain ⟨ref, distance, a⟩ := r
    simp only at href
    rw [snapPoint, if_pos hsnap]
    simp only [if_neg href]
    cases checkEndpoints with
    | false => rfl
    | true =>
      simp only
      exact endpointLoop_none _ _ _ hno

theorem snapPointV0_disabled (st : DrawState) (point : P2) (refData : Option (P2 × ℚ × ℚ))
    (canStart : Bool) (hoff : st.snapping = false) :
    snapPointV0 st point refData canStart = (point, false) := by
  rw [snapPointV0.eq_def, if_neg (by rw [hoff]; exact Bool.false_ne_true)]

theorem snapPointV0_noSnap (st : DrawState) (point : P2) (refData : Option (P2 × ℚ × ℚ))
    (canStart : Bool) (hsnap : st.snapping = true)
    (href : match refData with
            | none => True
            | some r => ¬ angleSnaps r.2.2)
    (hno : ∀ c ∈ snapCandidatesV0 st canStart, ¬ Q2.ltq (distSq point c) (Q2.ofRat (1/4))) :
    snapPointV0 st point refData canStart = (point, false) := by
  cases refData with
  | none =>
    rw [snapPointV0, if_pos hsnap]
    simp only
    exact endpointLoop_none _ _ _ hno
  | some r =>
    obtain ⟨ref, distance, a⟩ := r
    simp only at href
    rw [snapPointV0, if_pos hsnap]
    simp only [if_neg href]
    exact endpointLoop_none _ _ _ hno

theorem getD_set_self {α : Type} (l : List α) (i : ℕ) (v d : α) (h : i < l.length) :
    (l.set i v).getD i d = v := by
  rw [List.getD_eq_getD_get?, List.get?_set_eq_of_lt v h]
  rfl

theorem getD_set_ne {α : Type} (l : List α) (i j : ℕ) (v d : α) (h : i ≠ j) :
    (l.set i v).getD j d = l.getD j d := by
  rw [List.getD_eq_getD_get?, List.get?_set_ne v l h, ← List.getD_eq_getD_get?]

theorem updateDrawing_walls (st : DrawState) (point : P2) (d a : ℚ) :
    (updateDrawing st point d a).walls = st.walls := by
  simp only [updateDrawing]
  split
  · rfl
  · split <;> rfl

theorem finishDrawing_walls (st : DrawState) :
    (finishDrawing st).walls = st.walls ∨
    ∃ pts, (finishDrawing st).walls = st.walls ++ [pts] ∧ 2 ≤ pts.length := by
  simp only [finishDrawing]
  split <;> split <;>
    first
      | (rename_i h2; right; exact ⟨_, rfl, h2⟩)
      | (left; rfl)

/-!
The claim theorems.
-/

/-- C1: four committed segments forming the unit square with corners
`(0,0), (1,0), (1,1), (0,1)` yield exactly one loop, that loop has exactly
four vertices, and floor regeneration produces exactly one floor. -/
theorem C1_unit_square_one_loop_one_floor :
    findAllClosedLoops 32 squareSegs = some [sqLoopKeys] ∧
    sqLoopKeys.length = 4 ∧
    regenerateAllFloors 32 squareSegs = some [sqFloor] := by
  refine ⟨?_, ?_, ?_⟩ <;> with_unfolding_all rfl

/-- C3 counterexample: the points `(0.0004, 0)` and `(0.0006, 0)` differ by
`0.0002 < 0.0005` in each coordinate yet get different vertex keys, because
they straddle the rounding boundary at `0.0005`; the claim that any two
points within `0.0005` share a key is therefore false. -/
theorem C3_counterexample_close_points_different_keys :
    |((⟨1/2500, 0⟩ : Pt).x) - ((⟨3/5000, 0⟩ : Pt).x)| < 1/2000 ∧
    |((⟨1/2500, 0⟩ : Pt).z) - ((⟨3/5000, 0⟩ : Pt).z)| < 1/2000 ∧
    getVertexKey ⟨1/2500, 0⟩ ≠ getVertexKey ⟨3/5000, 0⟩ := by
  refine ⟨?_, ?_, ?_⟩ <;> with_unfolding_all decide

/-- C3 amended: two points differing by less than `0.0005` in each of `x`
and `z` produce keys that agree up to one quantisation step per coordinate
(they need not be identical when a rounding boundary is straddled), and two
points differing by more than `0.001` in `x` or in `z` always produce
different keys. -/
theorem C3_vertex_key_quantisation (p q : Pt) :
    (|p.x - q.x| < 1/2000 → |p.z - q.z| < 1/2000 →
      ((getVertexKey p).1 - (getVertexKey q).1).natAbs ≤ 1 ∧
      ((getVertexKey p).2 - (getVertexKey q).2).natAbs ≤ 1) ∧
    ((1/1000 < |p.x - q.x| ∨ 1/1000 < |p.z - q.z|) →
      getVertexKey p ≠ getVertexKey q) := by
  constructor
  · intro hx hz
    exact ⟨key_close p.x q.x hx, key_close p.z q.z hz⟩
  · intro hfar heq
    have h1 : (getVertexKey p).1 = (getVertexKey q).1 := by rw [heq]
    have h2 : (getVertexKey p).2 = (getVertexKey q).2 := by rw [heq]
    rcases hfar with hfx | hfz
    · exact key_far p.x q.x hfx h1
    · exact key_far p.z q.z hfz h2

/-- C3 witness: the amended statement evaluated at concrete points, one
pair close in both coordinates, one pair far in `x`. -/
theorem C3_vertex_key_quantisation_witness :
    (((getVertexKey ⟨0, 0⟩).1 - (getVertexKey ⟨1/4000, 1/4000⟩).1).natAbs ≤ 1 ∧
     ((getVertexKey ⟨0, 0⟩).2 - (getVertexKey ⟨1/4000, 1/4000⟩).2).natAbs ≤ 1) ∧
    getVertexKey ⟨0, 0⟩ ≠ getVertexKey ⟨1/100, 0⟩ :=
  ⟨(C3_vertex_key_quantisation ⟨0, 0⟩ ⟨1/4000, 1/4000⟩).1
      (by with_unfolding_all decide) (by with_unfolding_all decide),
   (C3_vertex_key_quantisation ⟨0, 0⟩ ⟨1/100, 0⟩).2
      (Or.inl (by with_unfolding_all decide))⟩

/-- C6: two separate, non-touching closed quads yield exactly two loops and
two floors; deleting any one wall of the first quad leaves exactly the
second floor, unchanged, and symmetrically for the second quad. -/
theorem C6_disjoint_quads_and_deletion :
    findAllClosedLoops 64 twoQuads =
      some [sqLoopKeys, [(3000, 0), (4000, 0), (4000, 1000), (3000, 1000)]] ∧
    regenerateAllFloors 64 twoQuads = some [sqFloor, sqFloorB] ∧
    (∀ i ∈ [1, 2, 3, 4],
      findAllClosedLoops 64 (deleteWall twoQuads i) =
        some [[(3000, 0), (4000, 0), (4000, 1000), (3000, 1000)]] ∧
      regenerateAllFloors 64 (deleteWall twoQuads i) = some [sqFloorB]) ∧
    (∀ i ∈ [5, 6, 7, 8],
      findAllClosedLoops 64 (deleteWall twoQuads i) = some [sqLoopKeys] ∧
      regenerateAllFloors 64 (deleteWall twoQuads i) = some [sqFloor]) := by
  refine ⟨by with_unfolding_all rfl, by with_unfolding_all rfl, ?_, ?_⟩
  · intro i hi
    fin_cases hi
    · exact ⟨by with_unfolding_all rfl, by with_unfolding_all rfl⟩
    · exact ⟨by with_unfolding_all rfl, by with_unfolding_all rfl⟩
    · exact ⟨by with_unfolding_all rfl, by with_unfolding_all rfl⟩
    · exact ⟨by with_unfolding_all rfl, by with_unfolding_all rfl⟩
  · intro i hi
    fin_cases hi
    · exact ⟨by with_unfolding_all rfl, by with_unfolding_all rfl⟩
    · exact ⟨by with_unfolding_all rfl, by with_unfolding_all rfl⟩
    · exact ⟨by with_unfolding_all rfl, by with_unfolding_all rfl⟩
    · exact ⟨by with_unfolding_all rfl, by with_unfolding_all rfl⟩

/-- C6 witness: the deletion statement instantiated at wall id 1. -/
theorem C6_disjoint_quads_and_deletion_witness :
    regenerateAllFloors 64 (deleteWall twoQuads 1) = some [sqFloorB] :=
  (C6_disjoint_quads_and_deletion.2.2.1 1 (by decide)).2

/-- C7: extruding a polyline with `N ≥ 2` points yields exactly `4N`
position vertices (12N floats) and `8(N-1)` triangles (24(N-1) indices);
fewer than two points yield no geometry, for every normalisation
function. -/
theorem C7_extrusion_counts (norm : V3 → V3) (points : List V3)
    (height thickness : ℚ) :
    (2 ≤ points.length →
      (createExtrudedWallGeometry norm points height thickness).map
          (fun g => (g.1.length, g.2.length)) =
        some (3 * (4 * points.length), 3 * (8 * (points.length - 1)))) ∧
    (points.length < 2 →
      createExtrudedWallGeometry norm points height thickness = none) := by
  constructor
  · intro hlen
    rw [createExtrudedWallGeometry, if_neg (by omega)]
    rw [Option.map_some']
    have hv := range_flatMap_length (vertsAt norm points height thickness) 12
      (vertsAt_length norm points height thickness) points.length
    have hi := range_flatMap_length idxAt 24 idxAt_length (points.length - 1)
    rw [hv, hi]
    have e1 : 12 * points.length = 3 * (4 * points.length) := by ring
    have e2 : 24 * (points.length - 1) = 3 * (8 * (points.length - 1)) := by ring
    rw [e1, e2]
  · intro hlen
    rw [createExtrudedWallGeometry, if_pos hlen]

/-- C7 witness: a concrete three-point polyline with the identity in place
of the normalisation: 36 position floats and 48 indices. -/
theorem C7_extrusion_counts_witness :
    (createExtrudedWallGeometry (fun v => v) [⟨0, 0, 0⟩, ⟨1, 0, 0⟩, ⟨1, 0, 1⟩]
        (5/2) (3/20)).map (fun g => (g.1.length, g.2.length)) = some (36, 48) :=
  (C7_extrusion_counts (fun v => v) [⟨0, 0, 0⟩, ⟨1, 0, 0⟩, ⟨1, 0, 1⟩] (5/2) (3/20)).1
    (by decide)

/-- C10: every loop either detector returns has at least 3 vertices and at
most the depth cap many (15 for the main.js variant, 20 for the part_000
variant); in particular the floor generator guard rejecting loops shorter
than 3 can never fire on a detector loop. -/
theorem C10_loop_length_bounds :
    (∀ (fuel : ℕ) (segs : List Seg) (L : List (List Key)) (l : List Key),
      findAllClosedLoops fuel segs = some L → l ∈ L →
      3 ≤ l.length ∧ l.length ≤ 15) ∧
    (∀ (fuel : ℕ) (walls : List (List Pt)) (L : List (List (Option Pt)))
        (l : List (Option Pt)),
      findClosedLoopsFromWalls fuel walls = some L → l ∈ L →
      3 ≤ l.length ∧ l.length ≤ 20) := by
  constructor
  · intro fuel segs L l h hl
    simp only [findAllClosedLoops] at h
    by_cases hs : segs.length < 2
    · rw [if_pos hs] at h
      injection h with h2
      subst h2
      simp at hl
    · rw [if_neg hs] at h
      have hb := findLoopsAux_bounds 15 (adjOf (segEdges segs)) fuel (by norm_num)
        (vertexList (segEdges segs)) [] [] L (by simp) h l hl
      omega
  · intro fuel walls L l h hl
    simp only [findClosedLoopsFromWalls] at h
    by_cases he : (wallEdges walls).length = 0
    · rw [if_pos he] at h
      injection h with h2
      subst h2
      simp at hl
    · rw [if_neg he] at h
      cases haux : findLoopsAux 20 (adjOf (wallEdges walls)) fuel
          (vertexList (wallEdges walls)) [] [] with
      | none => rw [haux] at h; simp at h
      | some loops =>
        rw [haux, Option.map_some'] at h
        injection h with h2
        subst h2
        rw [List.mem_map] at hl
        obtain ⟨lk, hlk, rfl⟩ := hl
        have hb := findLoopsAux_bounds 20 (adjOf (wallEdges walls)) fuel (by norm_num)
          (vertexList (wallEdges walls)) [] [] loops (by simp) haux lk hlk
        rw [List.length_map]
        omega

/-- C10 witness: the bound instantiated on the unit square for both
detector variants. -/
theorem C10_loop_length_bounds_witness :
    (3 ≤ sqLoopKeys.length ∧ sqLoopKeys.length ≤ 15) ∧
    (3 ≤ sqLoopPtsV0.length ∧ sqLoopPtsV0.length ≤ 20) :=
  ⟨C10_loop_length_bounds.1 32 squareSegs [sqLoopKeys] sqLoopKeys
      (by with_unfolding_all rfl) (by simp),
   C10_loop_length_bounds.2 32 closedWallV0 [sqLoopPtsV0] sqLoopPtsV0
      (by with_unfolding_all rfl) (by simp)⟩

/-- C2 amended: with snapping enabled and no endpoint-snap candidate
(committed segment endpoint or the in-progress path start) within 0.5 units
of the result, a candidate whose angle (in `π/4` units) is within 7.5
degrees (`1/6` unit) of the nearest cardinal `2 * jround (a/2)` snaps to the
point at that cardinal angle and the original distance; otherwise a
candidate within 15 degrees (`1/3` unit) of the nearest diagonal
`2 * jround ((a-1)/2) + 1` snaps to that diagonal; in both cases `didSnap`
is true and the squared distance from the reference is exactly `d * d`. -/
theorem C2_angle_snap_quantisation (st : SnapState) (point ref : P2) (d a : ℚ)
    (hsnap : st.snapping = true) :
    ((|a - 2 * (jround (a/2) : ℚ)| < 1/6 →
      (∀ c ∈ snapCandidates st,
        ¬ Q2.ltq (distSq (pointAtAngle ref d (2 * jround (a/2))) c) (Q2.ofRat (1/4))) →
      snapPoint st point (some (ref, d, a)) true =
        (pointAtAngle ref d (2 * jround (a/2)), true) ∧
      distSq (pointAtAngle ref d (2 * jround (a/2))) ref = Q2.ofRat (d * d))) ∧
    ((¬ |a - 2 * (jround (a/2) : ℚ)| < 1/6 →
      |a - (2 * (jround ((a-1)/2) : ℚ) + 1)| < 1/3 →
      (∀ c ∈ snapCandidates st,
        ¬ Q2.ltq (distSq (pointAtAngle ref d (2 * jround ((a-1)/2) + 1)) c)
          (Q2.ofRat (1/4))) →
      snapPoint st point (some (ref, d, a)) true =
        (pointAtAngle ref d (2 * jround ((a-1)/2) + 1), true) ∧
      distSq (pointAtAngle ref d (2 * jround ((a-1)/2) + 1)) ref = Q2.ofRat (d * d))) := by
  constructor
  · intro hcard hno
    have hround : jround a = 2 * jround (a/2) := by
      apply jround_int
      push_cast
      rw [abs_sub_lt_iff] at hcard ⊢
      constructor <;> linarith [hcard.1, hcard.2]
    have hisc : isCardinal a := hround
    have hthresh : angleThreshold a = 1/6 := by rw [angleThreshold, if_pos hisc]
    have hsnaps : angleSnaps a := by
      left
      rw [hround, hthresh]
      push_cast
      exact hcard
    constructor
    · rw [snapPoint, if_pos hsnap]
      simp only
      rw [if_pos hsnaps, hround]
      simp only [if_pos]
      exact endpointLoop_none _ _ _ hno
    · exact distSq_pointAtAngle ref d (2 * jround (a/2))
  · intro hncard hdiag hno
    have hround : jround a = 2 * jround ((a-1)/2) + 1 := by
      apply jround_int
      push_cast
      rw [abs_sub_lt_iff] at hdiag ⊢
      constructor <;> linarith [hdiag.1, hdiag.2]
    have hisc : ¬ isCardinal a := by
      intro hc
      rw [isCardinal, hround] at hc
      omega
    have hthresh : angleThreshold a = 1/3 := by rw [angleThreshold, if_neg hisc]
    have hsnaps : angleSnaps a := by
      left
      rw [hround, hthresh]
      push_cast
      exact hdiag
    constructor
    · rw [snapPoint, if_pos hsnap]
      simp only
      rw [if_pos hsnaps, hround]
      exact endpointLoop_none _ _ _ hno
    · exact distSq_pointAtAngle ref d (2 * jround ((a-1)/2) + 1)

/-- C2 counterexample: with no committed endpoints at all (so the claim
hypothesis about committed endpoints holds vacuously), snapping enabled and
a candidate exactly on a cardinal angle, the start point of the in-progress
path lies 0.2 from the angle-snapped result, so the endpoint stage
overwrites it: the returned point is not the point at the cardinal angle
and its distance from the reference is not the original distance.  The
claim as stated is therefore false. -/
theorem C2_counterexample_path_start_override :
    stC2.wallSegments = [] ∧
    |(0:ℚ) - 2 * (jround ((0:ℚ)/2) : ℚ)| < 1/6 ∧
    snapPoint stC2 pW (some (p2zero, 1, 0)) true ≠
      (pointAtAngle p2zero 1 (2 * jround ((0:ℚ)/2)), true) ∧
    distSq (snapPoint stC2 pW (some (p2zero, 1, 0)) true).1 p2zero ≠ Q2.ofRat (1 * 1) := by
  refine ⟨rfl, ?_, ?_, ?_⟩ <;> with_unfolding_all decide

/-- C2 witness: the amended statement instantiated on an empty scene for a
cardinal snap (`a = 1/12`) and a diagonal snap (`a = 13/12`). -/
theorem C2_angle_snap_quantisation_witness :
    (snapPoint ⟨true, [], []⟩ pW (some (p2zero, 1, 1/12)) true =
       (pointAtAngle p2zero 1 (2 * jround ((1:ℚ)/12/2)), true) ∧
     distSq (pointAtAngle p2zero 1 (2 * jround ((1:ℚ)/12/2))) p2zero = Q2.ofRat (1 * 1)) ∧
    (snapPoint ⟨true, [], []⟩ pW (some (p2zero, 1, 13/12)) true =
       (pointAtAngle p2zero 1 (2 * jround (((13:ℚ)/12 - 1)/2) + 1), true) ∧
     distSq (pointAtAngle p2zero 1 (2 * jround (((13:ℚ)/12 - 1)/2) + 1)) p2zero =
       Q2.ofRat (1 * 1)) :=
  ⟨(C2_angle_snap_quantisation ⟨true, [], []⟩ pW p2zero 1 (1/12) rfl).1
      (by with_unfolding_all decide) (by with_unfolding_all decide),
   (C2_angle_snap_quantisation ⟨true, [], []⟩ pW p2zero 1 (13/12) rfl).2
      (by with_unfolding_all decide) (by with_unfolding_all decide)
      (by with_unfolding_all decide)⟩

/-- C4 amended: angle snapping runs before endpoint snapping, and the
endpoint stage compares the angle-snapped point (not the raw candidate)
against the candidate list; the first candidate in insertion order (wall
segments in order, then the path start) within 0.5 units of the
angle-snapped point is returned with its exact coordinates, and the search
stops at that first match. -/
theorem C4_first_endpoint_of_snapped_point_wins (st : SnapState) (point ref : P2) (d a : ℚ) (E : P2)
    (hsnap : st.snapping = true) (hzone : angleSnaps a)
    (hfind : (snapCandidates st).find?
        (fun c => decide (Q2.ltq (distSq (pointAtAngle ref d (jround a)) c)
          (Q2.ofRat (1/4)))) = some E) :
    snapPoint st point (some (ref, d, a)) true = (E, true) := by
  rw [snapPoint, if_pos hsnap]
  simp only
  rw [if_pos hzone]
  exact endpointLoop_find _ _ _ _ hfind

/-- C4 counterexample: a candidate at distance 10 and angle `1/12` quarter
steps (3.75 degrees) from the origin is inside the cardinal snap zone and
lies within 0.5 units of the committed endpoint `(9.9, 1.1)`, yet the
returned point is the angle-snapped point `(10, 0)` (1.2 units away from
that endpoint), not the endpoint: the code compares the already-snapped
point against endpoints, so the claim as stated about the raw candidate is
false. -/
theorem C4_counterexample_raw_candidate_proximity :
    |(1/12 : ℚ) - 2 * (jround ((1/12 : ℚ)/2) : ℚ)| < 1/6 ∧
    Q2.ltq (distSq origC4 EC4) (Q2.ofRat (1/4)) ∧
    snapPoint stC4 origC4 (some (p2zero, 10, 1/12)) true =
      (pointAtAngle p2zero 10 (2 * jround ((1/12 : ℚ)/2)), true) ∧
    (snapPoint stC4 origC4 (some (p2zero, 10, 1/12)) true).1 ≠ EC4 := by
  refine ⟨?_, ?_, ?_, ?_⟩ <;> with_unfolding_all decide

/-- C4 witness: with one committed segment whose start `(10.1, 0)` lies
0.1 from the angle-snapped point `(10, 0)`, the returned point is exactly
that endpoint. -/
theorem C4_first_endpoint_of_snapped_point_wins_witness :
    snapPoint stW4 pW (some (p2zero, 10, 0)) true = (EW4, true) :=
  C4_first_endpoint_of_snapped_point_wins stW4 pW p2zero 10 0 EW4 rfl (by with_unfolding_all decide)
    (by with_unfolding_all decide)

/-- C9: both `snapPoint` variants are total and degrade gracefully: with
the global toggle off they return an exact copy of the candidate with
`didSnap = false`, and with no angle tolerance applying and no endpoint
candidate within 0.5 units they return the candidate unchanged with
`didSnap = false`. -/
theorem C9_snap_never_errors (st : SnapState) (stV : DrawState) (point : P2)
    (refData : Option (P2 × ℚ × ℚ)) (checkEndpoints canStart : Bool) :
    (st.snapping = false → snapPoint st point refData checkEndpoints = (point, false)) ∧
    (st.snapping = true →
     (match refData with
      | none => True
      | some r => ¬ angleSnaps r.2.2) →
     (∀ c ∈ snapCandidates st, ¬ Q2.ltq (distSq point c) (Q2.ofRat (1/4))) →
     snapPoint st point refData checkEndpoints = (point, false)) ∧
    (stV.snapping = false → snapPointV0 stV point refData canStart = (point, false)) ∧
    (stV.snapping = true →
     (match refData with
      | none => True
      | some r => ¬ angleSnaps r.2.2) →
     (∀ c ∈ snapCandidatesV0 stV canStart, ¬ Q2.ltq (distSq point c) (Q2.ofRat (1/4))) →
     snapPointV0 stV point refData canStart = (point, false)) :=
  ⟨snapPoint_disabled st point refData checkEndpoints,
   fun hsnap href hno => snapPoint_noSnap st point refData checkEndpoints hsnap href hno,
   snapPointV0_disabled stV point refData canStart,
   fun hsnap href hno => snapPointV0_noSnap stV point refData canStart hsnap href hno⟩

/-- C9 witness: the four no-op cases evaluated on concrete states (toggle
off, and a far-away wall with an out-of-tolerance angle `a = 1/2`). -/
theorem C9_snap_never_errors_witness :
    snapPoint stC9off pW (some (p2zero, 1, 1/2)) true = (pW, false) ∧
    snapPoint stC9 pW (some (p2zero, 1, 1/2)) true = (pW, false) ∧
    snapPointV0 stV9off pW none false = (pW, false) ∧
    snapPointV0 stV9 pW (some (p2zero, 1, 1/2)) true = (pW, false) :=
  ⟨(C9_snap_never_errors stC9off stV9off pW (some (p2zero, 1, 1/2)) true false).1 rfl,
   (C9_snap_never_errors stC9 stV9 pW (some (p2zero, 1, 1/2)) true false).2.1 rfl
     (by with_unfolding_all decide) (by with_unfolding_all decide),
   (C9_snap_never_errors stC9off stV9off pW none false false).2.2.1 rfl,
   (C9_snap_never_errors stC9 stV9 pW (some (p2zero, 1, 1/2)) false true).2.2.2 rfl
     (by with_unfolding_all decide) (by with_unfolding_all decide)⟩

/-- C5: finishing a draw session whose path has more than 2 points and
whose last point is within the snap distance 0.5 of its first point commits
a wall whose last point is exactly the path first point, which is also the
committed wall first point: the closure is exact, not approximate. -/
theorem C5_loop_closure_exact (st : DrawState)
    (hlen : 2 < st.drawPoints.length)
    (hclose : Q2.ltq (distSq (st.drawPoints.getD (st.drawPoints.length - 1) p2zero)
        (st.drawPoints.getD 0 p2zero)) (Q2.ofRat (1/4))) :
    (finishDrawing st).walls =
      st.walls ++
        [st.drawPoints.set (st.drawPoints.length - 1) (st.drawPoints.getD 0 p2zero)] ∧
    (st.drawPoints.set (st.drawPoints.length - 1) (st.drawPoints.getD 0 p2zero)).getD
        (st.drawPoints.length - 1) p2zero =
      (st.drawPoints.set (st.drawPoints.length - 1) (st.drawPoints.getD 0 p2zero)).getD
        0 p2zero := by
  have hset : (st.drawPoints.set (st.drawPoints.length - 1)
      (st.drawPoints.getD 0 p2zero)).length = st.drawPoints.length := by
    simp
  have hcond : 2 < st.drawPoints.length ∧
      Q2.ltq (distSq (st.drawPoints.getD (st.drawPoints.length - 1) p2zero)
        (st.drawPoints.getD 0 p2zero)) (Q2.ofRat (1/4)) := ⟨hlen, hclose⟩
  refine ⟨?_, ?_⟩
  · simp only [finishDrawing]
    rw [if_pos hcond, if_pos (by rw [hset]; omega)]
  · rw [getD_set_self _ _ _ _ (by omega), getD_set_ne _ _ _ _ _ (by omega)]

/-- C5 witness: the exact-closure statement applied to `stC5`. -/
theorem C5_loop_closure_exact_witness :
    (finishDrawing stC5).walls =
      stC5.walls ++
        [stC5.drawPoints.set (stC5.drawPoints.length - 1) (stC5.drawPoints.getD 0 p2zero)] ∧
    (stC5.drawPoints.set (stC5.drawPoints.length - 1) (stC5.drawPoints.getD 0 p2zero)).getD
        (stC5.drawPoints.length - 1) p2zero =
      (stC5.drawPoints.set (stC5.drawPoints.length - 1) (stC5.drawPoints.getD 0 p2zero)).getD
        0 p2zero :=
  C5_loop_closure_exact stC5 (by with_unfolding_all decide) (by with_unfolding_all decide)

/-- C8 counterexample: a start at the origin, an update 0.3 away (appended),
then updates back to 0.05 and then to the origin itself (each overwriting
the last point in place, since they are within `MIN_POINT_DISTANCE` of the
previous last point), then finish: the committed wall is `[origin, origin]`,
whose two consecutive points are equal, hence closer than 0.3 and not
distinct — the claimed invariant does not hold for committed walls. -/
theorem C8_counterexample_overwritten_last_point :
    (runOps stC8 opsC8).walls = [[p2zero, p2zero]] ∧
    ([[p2zero, p2zero]].getD 0 []).getD 0 p2zero =
      ([[p2zero, p2zero]].getD 0 []).getD 1 p2zero ∧
    Q2.ltq (distSq (([[p2zero, p2zero]].getD 0 []).getD 0 p2zero)
        (([[p2zero, p2zero]].getD 0 []).getD 1 p2zero)) (Q2.ofRat (9/100)) := by
  refine ⟨?_, ?_, ?_⟩ <;> with_unfolding_all decide

/-- C8 amended: over every sequence of gesture events, every committed wall
has at least 2 points (the finish gate).  The stronger original claim that
consecutive points are at least 0.3 apart and distinct is refuted by
`C8_counterexample_overwritten_last_point`. -/
theorem C8_committed_wall_has_two_points (st : DrawState) (ops : List DrawOp)
    (hw : ∀ w ∈ st.walls, 2 ≤ w.length) :
    ∀ w ∈ (runOps st ops).walls, 2 ≤ w.length := by
  induction ops generalizing st with
  | nil => simpa [runOps] using hw
  | cons op rest ih =>
    show ∀ w ∈ (runOps (applyOp st op) rest).walls, 2 ≤ w.length
    apply ih
    cases op with
    | start p => simpa [applyOp, startDrawing] using hw
    | update point d a =>
      rw [applyOp, updateDrawing_walls]
      exact hw
    | finish =>
      rw [applyOp]
      rcases finishDrawing_walls st with h | ⟨pts, h, hp⟩
      · rw [h]; exact hw
      · rw [h]
        intro w hwm
        rw [List.mem_append] at hwm
        rcases hwm with hwm | hwm
        · exact hw w hwm
        · rcases List.mem_singleton.mp hwm with rfl
          exact hp

/-- C8 witness: the amended statement applied to the concrete event
sequence of the counterexample; the committed wall has two points. -/
theorem C8_committed_wall_has_two_points_witness :
    2 ≤ ((runOps stC8 opsC8).walls.getD 0 []).length := by
  have h := C8_committed_wall_has_two_points stC8 opsC8 (by simp [stC8])
  have hw : (runOps stC8 opsC8).walls = [[p2zero, p2zero]] := by
    with_unfolding_all rfl
  have h2 := h [p2zero, p2zero] (by rw [hw]; exact List.mem_cons_self _ _)
  rw [hw]
  exact h2

